import Mathlib

/-!
# Verification of the Terpedia functional-flavors RAG subsystem

Shallow embedding of the retrieval-augmented chat widget of the
Terpedia/functional-flavors repository.  Strings of the JavaScript source are
modelled as `List Char`; SQLite result sets and JS arrays as `List`; fallible
operations as `Except`.  Each definition mirrors one function of the source:

* `RagBuilder.*`   — `chunkText` and the sentence splitter shared by
  `scripts/build-rag.js` (src/unnamed/part_004) and
  `src/scripts/build-rag-sqlite.js`.
* `ApiChat.*`      — `findRelevantContext` of `src/api/chat.js`.
* `Part002.*`      — `findRelevantChunks` and the `callAPI` response
  normalization of the earlier widget variant (src/unnamed/part_002).
* `ChatWidget.*`   — `findWithKeywords`, `findRelevantChunks`,
  `generateResponse`, `generateContextualResponse` and the `callTerpediaAPI`
  response normalization of the deployed `src/chat-widget.js`.

Only the ASCII fragment of the JS string semantics is modelled: `toLowerCase`
lowers the 26 ASCII letters, `\s` is the ASCII whitespace class, and SQLite
`LIKE` is case-insensitive on ASCII (its actual behaviour).  All query and
chunk texts appearing in the repository are ASCII.
-/

/-- ASCII part of the JS regex class `\s` (space, tab, LF, VT, FF, CR). -/
def isWsChar (c : Char) : Bool :=
  c = ' ' || c = '\t' || c = '\n' || c = '\x0b' || c = '\x0c' || c = '\r'

/-- ASCII lower-casing of one character, the fragment of
`String.prototype.toLowerCase` exercised by the repository. -/
def asciiLower (c : Char) : Char :=
  if 'A' ≤ c ∧ c ≤ 'Z' then Char.ofNat (c.toNat + 32) else c

/-- `s.toLowerCase()` on the ASCII fragment. -/
def lowerL (l : List Char) : List Char := l.map asciiLower

/-- `w` is an initial segment of `t` (decidable, executable). -/
def leadsWith : List Char → List Char → Bool
  | [], _ => true
  | _ :: _, [] => false
  | a :: w, b :: t => a = b && leadsWith w t

/-- `t` contains `w` as a contiguous substring — the semantics of both the JS
`includes`-style containment and of SQL `LIKE '%w%'` once both sides are in
the same case. -/
def hasSub : List Char → List Char → Bool
  | [], w => w.isEmpty
  | c :: t, w => leadsWith w (c :: t) || hasSub t w

/-- Fueled model of `String.prototype.split(/\s+/)`.  Each recursive call
strictly shrinks the text (at least one whitespace character is consumed), so
fuel `length + 1` never runs out.  Note the JS quirks preserved here: an input
that starts (resp. ends) with whitespace contributes a leading (resp.
trailing) empty token, and the empty string splits to `[""]`. -/
def jsSplitWs : Nat → List Char → List (List Char)
  | 0, _ => []
  | fuel + 1, l =>
    let tok := l.takeWhile (fun c => !(isWsChar c))
    let rest := l.dropWhile (fun c => !(isWsChar c))
    match rest with
    | [] => [tok]
    | _ :: _ => tok :: jsSplitWs fuel (rest.dropWhile isWsChar)

/-- `s.split(/\s+/)`. -/
def splitWs (l : List Char) : List (List Char) := jsSplitWs (l.length + 1) l

/-- Drop trailing characters satisfying `isWsChar` (structural version). -/
def dropTrailWs : List Char → List Char
  | [] => []
  | c :: cs =>
    let r := dropTrailWs cs
    if r = [] ∧ isWsChar c then [] else c :: r

/-- `s.trim()`: strip ASCII whitespace from both ends. -/
def trimL (l : List Char) : List Char := dropTrailWs (l.dropWhile isWsChar)

/-- `parts.join(sep)`. -/
def joinSep (sep : List Char) : List (List Char) → List Char
  | [] => []
  | [x] => x
  | x :: xs => x ++ sep ++ joinSep sep xs

/-- One row of the `chunks` table of `rag.sqlite` (also the JSON chunk record
of `rag-index.json`, with the fields the queries read). -/
structure Chunk where
  id : Nat
  page_title : List Char
  page_url : List Char
  section_heading : List Char
  chunk_text : List Char
  word_count : Nat
deriving DecidableEq

/-- `query.toLowerCase().split(/\s+/).filter(w => w.length > 2)` — the query
tokenization shared verbatim by `findRelevantChunks` of part_002 and
`findWithKeywords` of chat-widget.js. -/
def queryTokens (q : List Char) : List (List Char) :=
  (splitWs (lowerL q)).filter (fun w => 2 < w.length)

/-- The SQL `WHERE` clause `chunk_text LIKE '%' || ? || '%' OR ...` over all
query tokens (shared by part_002 `findRelevantChunks` and chat-widget.js
`findWithKeywords`; SQLite `LIKE` is ASCII-case-insensitive, and the bound
tokens are already lower-cased). -/
def matchesAnyToken (q : List Char) (c : Chunk) : Bool :=
  (queryTokens q).any (fun w => hasSub (lowerL c.chunk_text) w)

namespace RagBuilder

/-- The terminal punctuation class `[.!?]` of the sentence regex. -/
def isTermPunct (c : Char) : Bool := c = '.' || c = '!' || c = '?'

/-- Fueled model of `text.match(/[^.!?]+[.!?]+/g)`: repeatedly skip characters
that cannot start a match (terminal punctuation), take the maximal run of
non-terminal characters, and require at least one terminal character to close
the sentence (a trailing run with no terminal punctuation yields no further
match, exactly as the regex behaves).  Each recursive call strictly shrinks
the text, so fuel `length + 1` never runs out. -/
def sentScan : Nat → List Char → List (List Char)
  | 0, _ => []
  | fuel + 1, l =>
    let l1 := l.dropWhile isTermPunct
    let body := l1.takeWhile (fun c => !(isTermPunct c))
    let rest := l1.dropWhile (fun c => !(isTermPunct c))
    match rest with
    | [] => []
    | _ :: _ =>
      (body ++ rest.takeWhile isTermPunct) :: sentScan fuel (rest.dropWhile isTermPunct)

/-- `const sentences = text.match(/[^.!?]+[.!?]+/g) || [text];` -/
def splitSentences (text : List Char) : List (List Char) :=
  let s := sentScan (text.length + 1) text
  if s = [] then [text] else s

/-- The sentence-accumulation loop of `chunkText`: flush the buffer (trimmed)
when appending the next sentence would exceed `chunkSize` while the buffer is
non-empty, then flush the trimmed final buffer if non-empty. -/
def chunkGo (chunkSize : Nat) : List (List Char) → List Char → List (List Char)
  | [], cur => if trimL cur ≠ [] then [trimL cur] else []
  | s :: rest, cur =>
    if chunkSize < (cur ++ s).length ∧ cur ≠ [] then
      trimL cur :: chunkGo chunkSize rest s
    else
      chunkGo chunkSize rest (cur ++ s)

/-- `chunkText(text, chunkSize = 500)` of `scripts/build-rag.js` (part_004)
and `src/scripts/build-rag-sqlite.js` (identical bodies): split into
sentences, greedily accumulate, then keep only chunks longer than 50
characters. -/
def chunkText (text : List Char) (chunkSize : Nat) : List (List Char) :=
  (chunkGo chunkSize (splitSentences text) []).filter (fun c => 50 < c.length)

end RagBuilder

namespace ApiChat

/-- `queryLower.split(/\s+/)` — `findRelevantContext` of src/api/chat.js
tokenizes without any minimum-length filter. -/
def queryWordsAll (q : List Char) : List (List Char) :=
  splitWs (lowerL q)

/-- Fueled scan counting the non-overlapping left-to-right occurrences of the
literal pattern `w` in `t`, the behaviour of
`(t.match(new RegExp(w, 'g')) || []).length` for a pattern without regex
metacharacters and `w ≠ ""`.  With `w` non-empty every recursive call
strictly shrinks `t`, so fuel `length + 1` never runs out; the empty pattern
is handled by the `countMatches` wrapper. -/
def countSub : Nat → List Char → List Char → Nat
  | 0, _, _ => 0
  | fuel + 1, t, w =>
    if leadsWith w t then 1 + countSub fuel (t.drop w.length) w
    else
      match t with
      | [] => 0
      | _ :: t' => countSub fuel t' w

/-- Occurrence count of the query word in the lower-cased chunk text.  A JS
empty-pattern global regex matches once at every position, giving
`length + 1`. -/
def countMatches (w t : List Char) : Nat :=
  if w = [] then t.length + 1 else countSub (t.length + 1) t w

/-- The score accumulated for one chunk by `findRelevantContext`: the sum
over all query words of their occurrence counts in the lower-cased chunk. -/
def chunkScore (q : List Char) (text : List Char) : Nat :=
  ((queryWordsAll q).map (fun w => countMatches w (lowerL text))).sum

/-- The comparator `(a, b) => b.score - a.score` as the sort relation of a
stable descending sort (JS `Array.prototype.sort` is stable). -/
def rankScore (q : List Char) (a b : List Char) : Prop :=
  chunkScore q b ≤ chunkScore q a

instance (q : List Char) : DecidableRel (rankScore q) :=
  fun a b => Nat.decLe _ _

/-- `scoredChunks.sort((a, b) => b.score - a.score).slice(0, topK)` — note
there is no exclusion of zero-score chunks. -/
def topChunks (q : List Char) (chunks : List (List Char)) (topK : Nat) :
    List (List Char) :=
  (chunks.insertionSort (rankScore q)).take topK

/-- `findRelevantContext(query, content, topK = 3)` of src/api/chat.js: a
null `content` yields the empty string, otherwise the top-`topK` chunks by
keyword score joined with a blank line. -/
def findRelevantContext (q : List Char) (content : Option (List (List Char)))
    (topK : Nat) : List Char :=
  match content with
  | none => []
  | some chunks => joinSep (("\n\n").data) (topChunks q chunks topK)

end ApiChat

namespace Part002

/-- The SQL `CASE WHEN chunk_text LIKE '%' || ? || '%' THEN 10 ELSE 1 END`
of part_002 `findRelevantChunks`.  The bound parameter is `queryWords[0]`
(the first query token), not the full query string. -/
def caseScore (q : List Char) (c : Chunk) : Nat :=
  if hasSub (lowerL c.chunk_text) ((queryTokens q).head!) then 10 else 1

/-- The two-key `ORDER BY` of part_002: `CASE ... DESC, word_count DESC`,
read as the relation of a stable descending sort. -/
def rankOrder (q : List Char) (a b : Chunk) : Prop :=
  caseScore q b < caseScore q a ∨
    (caseScore q b = caseScore q a ∧ b.word_count ≤ a.word_count)

instance (q : List Char) : DecidableRel (rankOrder q) := fun _ _ =>
  inferInstanceAs (Decidable (_ ∨ _))

/-- `findRelevantChunks(query, topK = 5)` of src/unnamed/part_002: return
`[]` when the database is not loaded or no query token survives the length
filter; otherwise select the chunks matching any token, ordered by the
first-token CASE bonus then by word count, limited to `topK`. -/
def findRelevantChunks (q : List Char) (topK : Nat) (initialized : Bool)
    (db : Option (List Chunk)) : List Chunk :=
  if initialized = false ∨ db = none then []
  else if queryTokens q = [] then []
  else (((db.getD []).filter (matchesAnyToken q)).insertionSort (rankOrder q)).take topK

end Part002

namespace ChatWidget

/-- The single-key `ORDER BY word_count DESC` of `findWithKeywords`, read as
the relation of a stable descending sort. -/
def byWordCount (a b : Chunk) : Prop := b.word_count ≤ a.word_count

instance : DecidableRel byWordCount := fun _ _ => Nat.decLe _ _

instance : IsTotal Chunk byWordCount :=
  ⟨fun a b => Nat.le_total b.word_count a.word_count⟩

instance : IsTrans Chunk byWordCount :=
  ⟨fun _ _ _ hab hbc => Nat.le_trans hbc hab⟩

/-- `findWithKeywords(query, topK)` of src/chat-widget.js: tokenize the
lower-cased query into words longer than 2 characters, return `[]` when none
survive, otherwise select the chunks whose text contains any token as a
substring, ordered by `word_count DESC` alone, limited to `topK`. -/
def findWithKeywords (q : List Char) (topK : Nat) (db : List Chunk) :
    List Chunk :=
  if queryTokens q = [] then []
  else ((db.filter (matchesAnyToken q)).insertionSort byWordCount).take topK

/-- `try { a } catch { handler }` on `Except`-modelled computations. -/
def tryCatch (a : Except (List Char) (List Chunk))
    (handler : List Char → Except (List Char) (List Chunk)) :
    Except (List Char) (List Chunk) :=
  match a with
  | Except.ok v => Except.ok v
  | Except.error e => handler e

/-- `findRelevantChunks(query, topK)` of src/chat-widget.js, with the two
fallible search tiers (`findWithFTS5`, then `findWithKeywords` as fallback)
passed in as `Except` results: return `[]` when the database is not loaded,
try FTS5, fall back to keyword search on its error, and catch any remaining
error as `[]`. -/
def findRelevantChunks (initialized : Bool) (db : Option Unit)
    (ftsResult kwResult : Except (List Char) (List Chunk)) :
    Except (List Char) (List Chunk) :=
  if initialized = false ∨ db = none then Except.ok []
  else tryCatch (tryCatch ftsResult (fun _ => kwResult)) (fun _ => Except.ok [])

end ChatWidget

namespace ChatWidget

/-- `[...new Set(l)]`: deduplicate preserving first-occurrence order. -/
def jsDedup (l : List (List Char)) : List (List Char) :=
  l.foldl (fun acc x => if x ∈ acc then acc else acc ++ [x]) []

/-- The no-chunk message of `generateContextualResponse`. -/
def noInfoMsg (query : List Char) : List Char :=
  ("I couldn\x27t find specific information about \"").data ++ query ++
    ("\" in the site content. Try asking about functional flavors, compounds, FDA regulations, or safety information.").data

/-- `generateContextualResponse(query, chunks, context)` of
src/chat-widget.js: an apologetic message when no chunks were retrieved,
otherwise an excerpt of the first 1500 characters of the top three chunks
with a deduplicated source line.  The `context` argument is accepted and
ignored, as in the source. -/
def generateContextualResponse (query : List Char) (chunks : List Chunk)
    (context : List Char) : List Char :=
  if chunks = [] then noInfoMsg query
  else
    let topChunks := chunks.take 3
    let sources := jsDedup ((topChunks.map (fun c => c.page_title)).filter (fun t => t ≠ []))
    let sourceText :=
      if sources ≠ [] then
        ("\n\n*Sources: ").data ++ joinSep ((", ").data) sources ++ ("*").data
      else []
    let combinedText := joinSep (("\n\n---\n\n").data) (topChunks.map (fun c => c.chunk_text))
    let excerpt := combinedText.take 1500
    ("Based on the site content, here\x27s what I found:\n\n").data ++ excerpt ++
      (if excerpt.length < combinedText.length then ("...").data else []) ++
      sourceText ++
      ("\n\nFor more complete information, check the relevant sections in the article or use the table of contents to navigate directly.").data

/-- The per-chunk context entry built in `generateResponse`:
the chunk text, a newline, and a bracketed source tag when the page title is
non-empty. -/
def chunkWithSource (c : Chunk) : List Char :=
  c.chunk_text ++ ("\n").data ++
    (if c.page_title ≠ [] then
      ("[Source: ").data ++ c.page_title ++
        (if c.section_heading ≠ [] then (" - ").data ++ c.section_heading else []) ++
        ("]").data
    else [])

/-- The `contextText` assembled by `generateResponse` from the retrieved
chunks (empty when no chunk was retrieved). -/
def buildContextText (chunks : List Chunk) : List Char :=
  if chunks ≠ [] then joinSep (("\n\n---\n\n").data) (chunks.map chunkWithSource)
  else []

/-- The error-handling skeleton of `generateResponse(userMessage)` of
src/chat-widget.js, with the outcome of `callTerpediaAPI` passed in as an
`Except`: a successful API answer is returned as is; on API failure the local
template is used when chunks were retrieved, and otherwise the original error
is re-thrown (`throw error`). -/
def generateResponse (userMessage : List Char) (relevantChunks : List Chunk)
    (apiResult : Except (List Char) (List Char)) :
    Except (List Char) (List Char) :=
  match apiResult with
  | Except.ok r => Except.ok r
  | Except.error e =>
    if relevantChunks ≠ [] then
      Except.ok (generateContextualResponse userMessage relevantChunks
        (buildContextText relevantChunks))
    else Except.error e

end ChatWidget

/-! ## JSON payloads of the generation endpoint

A mutual-inductive model of the JS values produced by `response.json()`,
rich enough for the response-shape normalization: primitives, arrays and
objects, plus `undefined` as the result of reading an absent property.
Parsed JSON never contains `undefined` and has no duplicate keys, so object
lookup returns the first binding of a key. -/

mutual
inductive JVal where
  | undef : JVal
  | jnull : JVal
  | jbool : Bool → JVal
  | jnum : Int → JVal
  | jstr : List Char → JVal
  | jarr : JArr → JVal
  | jobj : JObj → JVal
inductive JArr where
  | anil : JArr
  | acons : JVal → JArr → JArr
inductive JObj where
  | onil : JObj
  | ocons : List Char → JVal → JObj → JObj
end

/-- JS truthiness of a value (`NaN` and `-0` are not modelled; `document`
payloads never contain them). -/
def truthy : JVal → Bool
  | JVal.undef => false
  | JVal.jnull => false
  | JVal.jbool b => b
  | JVal.jnum n => n ≠ 0
  | JVal.jstr s => s ≠ []
  | JVal.jarr _ => true
  | JVal.jobj _ => true

/-- First binding of `key` in an object, `undef` when absent. -/
def JObj.find : JObj → List Char → JVal
  | JObj.onil, _ => JVal.undef
  | JObj.ocons k v rest, key => if k = key then v else JObj.find rest key

/-- JS property read `data[key]`: reading a property of `null` or
`undefined` throws a `TypeError`, modelled as `none` (the surrounding
endpoint `try` of `callTerpediaAPI` / `callAPI` catches it as endpoint
failure); an object is looked up by key; every other receiver (string,
number, boolean, array — none of which owns the keys this code reads)
yields `undefined`. -/
def getField : JVal → List Char → Option JVal
  | JVal.undef, _ => none
  | JVal.jnull, _ => none
  | JVal.jobj o, key => some (JObj.find o key)
  | _, _ => some JVal.undef

/-- JS element read `data[0]`: a `TypeError` on `null`/`undefined`
(modelled as `none`), the first array element, the binding of key "0" on an
object receiver, the first character of a string, `undefined` otherwise. -/
def jsIndex0 : JVal → Option JVal
  | JVal.undef => none
  | JVal.jnull => none
  | JVal.jarr (JArr.acons v _) => some v
  | JVal.jobj o => some (JObj.find o (("0").data))
  | JVal.jstr (c :: _) => some (JVal.jstr [c])
  | _ => some JVal.undef

/-- `typeof data === 'string'`. -/
def isJsString : JVal → Bool
  | JVal.jstr _ => true
  | _ => false

/-- The JSON string escaping of `JSON.stringify` restricted to the escapes
exercised here (backslash, double quote, newline). -/
def escapeChars : List Char → List Char
  | [] => []
  | c :: cs =>
    (if c = '"' then ['\\', '"']
     else if c = '\\' then ['\\', '\\']
     else if c = '\n' then ['\\', 'n']
     else [c]) ++ escapeChars cs

/-- Decimal rendering of a JSON number. -/
def intToChars (n : Int) : List Char :=
  if n < 0 then '-' :: Nat.toDigits 10 n.natAbs else Nat.toDigits 10 n.toNat

mutual
/-- `JSON.stringify(data)`.  `stringify undef = []` models that
`JSON.stringify(undefined)` is not a string; parsed payloads are never
`undefined`.  Object fields with `undefined` values are omitted, as
`JSON.stringify` does. -/
def stringify : JVal → List Char
  | JVal.undef => []
  | JVal.jnull => ("null").data
  | JVal.jbool true => ("true").data
  | JVal.jbool false => ("false").data
  | JVal.jnum n => intToChars n
  | JVal.jstr s => '"' :: (escapeChars s ++ ['"'])
  | JVal.jarr a => '\x5b' :: (stringifyArr a ++ ['\x5d'])
  | JVal.jobj o => '\x7b' :: (joinSep [','] (stringifyFields o) ++ ['\x7d'])
def stringifyArr : JArr → List Char
  | JArr.anil => []
  | JArr.acons v JArr.anil => stringify v
  | JArr.acons v rest => stringify v ++ ',' :: stringifyArr rest
def stringifyFields : JObj → List (List Char)
  | JObj.onil => []
  | JObj.ocons _ JVal.undef rest => stringifyFields rest
  | JObj.ocons k v rest =>
    ('"' :: (escapeChars k ++ ['"', ':'] ++ stringify v)) :: stringifyFields rest
end

namespace ChatWidget

/-- The last two branches of the normalization (`typeof data === 'string'`
returns the payload verbatim, any remaining shape is stringified), reached
whenever no truthy `response`/`message` field and no truthy `choices` chain
was found. -/
def unrecognizedShape (data : JVal) : Option JVal :=
  if isJsString data then some data else some (JVal.jstr (stringify data))

/-- The response-shape normalization of `callTerpediaAPI` in
src/chat-widget.js: `data.response` if truthy, else `data.message` if
truthy, else `data.choices[0].message.content` when the truthiness chain
`data.choices && data.choices[0] && data.choices[0].message` holds, else the
payload itself when it is a string, else `JSON.stringify(data)`.  The very
first property read throws a `TypeError` on a `null` payload (`none`, caught
by the endpoint loop as endpoint failure); the later reads of the
short-circuited `&&` chain are reached only on truthy — hence non-null —
receivers, but the model threads their partiality through faithfully. -/
def normalizeResponse (data : JVal) : Option JVal :=
  match getField data (("response").data) with
  | none => none
  | some r =>
    if truthy r then some r
    else
      match getField data (("message").data) with
      | none => none
      | some m =>
        if truthy m then some m
        else
          match getField data (("choices").data) with
          | none => none
          | some ch =>
            if truthy ch then
              match jsIndex0 ch with
              | none => none
              | some ch0 =>
                if truthy ch0 then
                  match getField ch0 (("message").data) with
                  | none => none
                  | some msg =>
                    if truthy msg then getField msg (("content").data)
                    else unrecognizedShape data
                else unrecognizedShape data
            else unrecognizedShape data

end ChatWidget

namespace Part002

/-- The response normalization of `callAPI` in src/unnamed/part_002:
`data.response || data.message || JSON.stringify(data)` — there is no
chat-completion (`choices`) branch in this variant.  As in the widget, the
read `data.response` throws a `TypeError` on a `null` payload (`none`,
caught by the surrounding `try` of `callAPI`). -/
def callAPINorm (data : JVal) : Option JVal :=
  match getField data (("response").data) with
  | none => none
  | some r =>
    if truthy r then some r
    else
      match getField data (("message").data) with
      | none => none
      | some m =>
        if truthy m then some m
        else some (JVal.jstr (stringify data))

end Part002

/-! ## Basic lemmas about the string primitives -/

theorem leadsWith_iff (w t : List Char) :
    leadsWith w t = true ↔ ∃ rest, t = w ++ rest := by
  induction w generalizing t with
  | nil => simpa [leadsWith] using ⟨t, rfl⟩
  | cons a w ih =>
    cases t with
    | nil => simp [leadsWith]
    | cons b t =>
      simp only [leadsWith, Bool.and_eq_true, decide_eq_true_eq, ih, List.cons_append]
      constructor
      · rintro ⟨rfl, rest, rfl⟩
        exact ⟨rest, rfl⟩
      · rintro ⟨rest, h⟩
        obtain ⟨rfl, rfl⟩ := List.cons.inj h
        exact ⟨rfl, rest, rfl⟩

theorem hasSub_iff (t w : List Char) :
    hasSub t w = true ↔ ∃ pre post, t = pre ++ (w ++ post) := by
  induction t with
  | nil =>
    simp only [hasSub, List.isEmpty_iff]
    constructor
    · rintro rfl
      exact ⟨[], [], rfl⟩
    · rintro ⟨pre, post, h⟩
      rcases List.append_eq_nil.mp h.symm with ⟨rfl, h2⟩
      rcases List.append_eq_nil.mp h2 with ⟨rfl, rfl⟩
      rfl
  | cons c t ih =>
    simp only [hasSub, Bool.or_eq_true, leadsWith_iff, ih]
    constructor
    · rintro (⟨rest, h⟩ | ⟨pre, post, rfl⟩)
      · exact ⟨[], rest, by simpa using h⟩
      · exact ⟨c :: pre, post, rfl⟩
    · rintro ⟨pre, post, h⟩
      cases pre with
      | nil => exact Or.inl ⟨post, by simpa using h⟩
      | cons p pre =>
        obtain ⟨rfl, rfl⟩ := List.cons.inj h
        exact Or.inr ⟨pre, post, rfl⟩

theorem hasSub_of_parts (pre w post : List Char) :
    hasSub (pre ++ (w ++ post)) w = true :=
  (hasSub_iff _ _).mpr ⟨pre, post, rfl⟩

theorem hasSub_trans {t q w : List Char} (h1 : hasSub t q = true)
    (h2 : hasSub q w = true) : hasSub t w = true := by
  obtain ⟨p1, s1, rfl⟩ := (hasSub_iff _ _).mp h1
  obtain ⟨p2, s2, rfl⟩ := (hasSub_iff _ _).mp h2
  exact (hasSub_iff _ _).mpr ⟨p1 ++ p2, s2 ++ s1, by simp⟩

theorem hasSub_append_left (pre t w : List Char) (h : hasSub t w = true) :
    hasSub (pre ++ t) w = true := by
  obtain ⟨p, s, rfl⟩ := (hasSub_iff _ _).mp h
  exact (hasSub_iff _ _).mpr ⟨pre ++ p, s, by simp⟩

theorem jsSplitWs_hasSub (fuel : Nat) (l w : List Char)
    (hw : w ∈ jsSplitWs fuel l) : hasSub l w = true := by
  induction fuel generalizing l with
  | zero => simp [jsSplitWs] at hw
  | succ fuel ih =>
    simp only [jsSplitWs] at hw
    have htok : hasSub l (l.takeWhile (fun c => !(isWsChar c))) = true :=
      (hasSub_iff _ _).mpr ⟨[], l.dropWhile (fun c => !(isWsChar c)),
        by simp [List.takeWhile_append_dropWhile]⟩
    rcases hrest : l.dropWhile (fun c => !(isWsChar c)) with _ | ⟨r, rest⟩
    · rw [hrest] at hw
      simp only [List.mem_singleton] at hw
      subst hw
      exact htok
    · rw [hrest] at hw
      rcases List.mem_cons.mp hw with rfl | hw
      · exact htok
      · have h1 : hasSub ((r :: rest).takeWhile isWsChar ++
            (r :: rest).dropWhile isWsChar) w = true :=
          hasSub_append_left _ _ _ (ih _ hw)
        rw [List.takeWhile_append_dropWhile] at h1
        have h2 : hasSub (l.takeWhile (fun c => !(isWsChar c)) ++ (r :: rest)) w = true :=
          hasSub_append_left _ _ _ h1
        rwa [← hrest, List.takeWhile_append_dropWhile] at h2

theorem dropTrailWs_cases (c : Char) (cs : List Char) :
    dropTrailWs (c :: cs) = [] ∨ dropTrailWs (c :: cs) = c :: dropTrailWs cs := by
  by_cases h : dropTrailWs cs = [] ∧ isWsChar c
  · exact Or.inl (by simp [dropTrailWs, h])
  · exact Or.inr (by simp [dropTrailWs, h])

theorem dropTrailWs_idem (l : List Char) :
    dropTrailWs (dropTrailWs l) = dropTrailWs l := by
  induction l with
  | nil => rfl
  | cons c cs ih =>
    by_cases h : dropTrailWs cs = [] ∧ isWsChar c
    · simp [dropTrailWs, h]
    · have h1 : dropTrailWs (c :: cs) = c :: dropTrailWs cs := by simp [dropTrailWs, h]
      rw [h1]
      simp only [dropTrailWs, ih]
      simp [h]

theorem headNotWs_dropWhile (l : List Char) (c : Char) (t : List Char)
    (h : l.dropWhile isWsChar = c :: t) : isWsChar c = false := by
  induction l with
  | nil => simp [List.dropWhile] at h
  | cons a l ih =>
    rw [List.dropWhile_cons] at h
    by_cases ha : isWsChar a
    · rw [if_pos ha] at h
      exact ih h
    · rw [if_neg ha] at h
      obtain ⟨rfl, -⟩ := List.cons.inj h
      simpa using ha

theorem trimL_idem (l : List Char) : trimL (trimL l) = trimL l := by
  unfold trimL
  rcases hy : l.dropWhile isWsChar with _ | ⟨c, cs⟩
  · rfl
  · rcases dropTrailWs_cases c cs with h1 | h1
    · rw [h1]
      rfl
    · rw [h1]
      have hc : isWsChar c = false := headNotWs_dropWhile l c cs hy
      rw [List.dropWhile_cons, if_neg (by simp [hc])]
      simp only [dropTrailWs, dropTrailWs_idem]
      simp [hc]

theorem dropTrailWs_length_le (l : List Char) :
    (dropTrailWs l).length ≤ l.length := by
  induction l with
  | nil => simp [dropTrailWs]
  | cons c cs ih =>
    by_cases h : dropTrailWs cs = [] ∧ isWsChar c
    · simp [dropTrailWs, h]
    · simp only [dropTrailWs, if_neg h, List.length_cons]
      omega

theorem dropWhileWs_length_le (l : List Char) :
    (l.dropWhile isWsChar).length ≤ l.length := by
  induction l with
  | nil => simp
  | cons c cs ih =>
    rw [List.dropWhile_cons]
    by_cases hc : isWsChar c
    · rw [if_pos hc]
      exact Nat.le_trans ih (Nat.le_succ _)
    · rw [if_neg hc]

theorem trimL_length_le (l : List Char) : (trimL l).length ≤ l.length :=
  Nat.le_trans (dropTrailWs_length_le _) (dropWhileWs_length_le _)

namespace RagBuilder

theorem chunkGo_mem_bound (n : Nat) (S : List (List Char))
    (sents : List (List Char)) :
    ∀ cur : List Char, (∀ s ∈ sents, s ∈ S) →
      (cur = [] ∨ cur.length ≤ n ∨ cur ∈ S) →
      ∀ c ∈ chunkGo n sents cur, c.length ≤ n ∨ ∃ s ∈ S, c = trimL s := by
  induction sents with
  | nil =>
    intro cur _ hcur c hc
    simp only [chunkGo] at hc
    by_cases ht : trimL cur ≠ []
    · rw [if_pos ht] at hc
      simp only [List.mem_singleton] at hc
      subst hc
      rcases hcur with rfl | hlen | hmem
      · exact absurd rfl ht
      · exact Or.inl (Nat.le_trans (trimL_length_le cur) hlen)
      · exact Or.inr ⟨cur, hmem, rfl⟩
    · rw [if_neg ht] at hc
      simp at hc
  | cons s rest ih =>
    intro cur hS hcur c hc
    simp only [chunkGo] at hc
    by_cases hcond : n < (cur ++ s).length ∧ cur ≠ []
    · rw [if_pos hcond] at hc
      rcases List.mem_cons.mp hc with rfl | hc
      · rcases hcur with rfl | hlen | hmem
        · exact absurd rfl hcond.2
        · exact Or.inl (Nat.le_trans (trimL_length_le cur) hlen)
        · exact Or.inr ⟨cur, hmem, rfl⟩
      · exact ih s (fun x hx => hS x (List.mem_cons_of_mem _ hx))
          (Or.inr (Or.inr (hS s (List.mem_cons_self _ _)))) c hc
    · rw [if_neg hcond] at hc
      refine ih (cur ++ s) (fun x hx => hS x (List.mem_cons_of_mem _ hx)) ?_ c hc
      by_cases hcur0 : cur = []
      · subst hcur0
        exact Or.inr (Or.inr (by simpa using hS s (List.mem_cons_self _ _)))
      · exact Or.inr (Or.inl (Nat.le_of_not_lt (fun h => hcond ⟨h, hcur0⟩)))

theorem chunkGo_mem_isTrim (n : Nat) (sents : List (List Char)) :
    ∀ cur c, c ∈ chunkGo n sents cur → ∃ b, c = trimL b := by
  induction sents with
  | nil =>
    intro cur c hc
    simp only [chunkGo] at hc
    by_cases ht : trimL cur ≠ []
    · rw [if_pos ht] at hc
      simp only [List.mem_singleton] at hc
      exact ⟨cur, hc⟩
    · rw [if_neg ht] at hc
      simp at hc
  | cons s rest ih =>
    intro cur c hc
    simp only [chunkGo] at hc
    by_cases hcond : n < (cur ++ s).length ∧ cur ≠ []
    · rw [if_pos hcond] at hc
      rcases List.mem_cons.mp hc with rfl | hc
      · exact ⟨cur, rfl⟩
      · exact ih s c hc
    · rw [if_neg hcond] at hc
      exact ih (cur ++ s) c hc

/-- The buffers flushed by `chunkGo`: the trimmed running buffer at each
flush point, and the trimmed final buffer when it is non-empty. -/
def emitAll (cur : List Char) : List (List Char) → List (List Char)
  | [] => if trimL cur ≠ [] then [trimL cur] else []
  | b :: bs => trimL cur :: emitAll b bs

theorem chunkGo_emit (n : Nat) (sents : List (List Char)) :
    ∀ cur : List Char, ∃ (p1 : List (List Char)) (ps : List (List (List Char))),
      p1 ++ List.flatten ps = sents ∧
      chunkGo n sents cur = emitAll (cur ++ List.flatten p1) (ps.map List.flatten) := by
  induction sents with
  | nil =>
    intro cur
    exact ⟨[], [], by simp, by simp [chunkGo, emitAll]⟩
  | cons s rest ih =>
    intro cur
    by_cases hcond : n < (cur ++ s).length ∧ cur ≠ []
    · obtain ⟨p1', ps', hj, he⟩ := ih s
      refine ⟨[], (s :: p1') :: ps', by simp [hj], ?_⟩
      simp only [chunkGo, if_pos hcond, he, List.map_cons, List.flatten_cons,
        List.flatten_nil, List.append_nil, emitAll, List.cons_append]
    · obtain ⟨p1', ps', hj, he⟩ := ih (cur ++ s)
      refine ⟨s :: p1', ps', by simp [hj], ?_⟩
      simp only [chunkGo, if_neg hcond, he, List.flatten_cons, List.append_assoc]

theorem emitAll_filter (c : List Char) (bs : List (List Char)) :
    (emitAll c bs).filter (fun x => 50 < x.length) =
      ((c :: bs).map trimL).filter (fun x => 50 < x.length) := by
  induction bs generalizing c with
  | nil =>
    by_cases h : trimL c ≠ []
    · simp [emitAll, h]
    · push_neg at h
      simp [emitAll, h]
  | cons b bs ih =>
    simp only [emitAll, List.map_cons, List.filter_cons, ih]

end RagBuilder

/-! ## Claims C4, C5, C6 — the chunker -/

/-- C4: in `chunkText` a buffer is flushed exactly when appending the next
sentence would exceed `targetSize` while the buffer is non-empty (this is the
definition of `RagBuilder.chunkGo`), and consequently every produced chunk
either fits in `targetSize` or is the trim of a single (possibly oversized)
sentence — hence every chunk is bounded by `targetSize` plus the length of
one sentence. -/
theorem c4_chunk_size_bound (text : List Char) (n : Nat) (c : List Char)
    (hc : c ∈ RagBuilder.chunkText text n) :
    c.length ≤ n ∨ ∃ s ∈ RagBuilder.splitSentences text, c = trimL s := by
  exact RagBuilder.chunkGo_mem_bound n (RagBuilder.splitSentences text) _ []
    (fun _ hs => hs) (Or.inl rfl) c (List.mem_of_mem_filter hc)

/-- A text whose first sentence alone exceeds a target size of 60 and whose
second sentence is shorter than the 50-character retention threshold. -/
def oversizedText : List Char := List.replicate 60 'a' ++ (". short.").data

set_option maxRecDepth 100000 in
/-- Witness for C4 at a concrete input: the oversized single-sentence chunk
is produced and satisfies the bound disjunction. -/
theorem c4_chunk_size_bound_witness :
    (List.replicate 60 'a' ++ ('.' :: [])) ∈ RagBuilder.chunkText oversizedText 60 ∧
    ((List.replicate 60 'a' ++ ('.' :: [])).length ≤ 60 ∨
      ∃ s ∈ RagBuilder.splitSentences oversizedText,
        (List.replicate 60 'a' ++ ('.' :: [])) = trimL s) :=
  ⟨by decide, c4_chunk_size_bound oversizedText 60 _ (by decide)⟩

/-- C5: every chunk returned by `chunkText` is stored trimmed and its
(trimmed) length is strictly greater than 50; shorter chunks are dropped by
the final filter. -/
theorem c5_min_chunk_length (text : List Char) (n : Nat) (c : List Char)
    (hc : c ∈ RagBuilder.chunkText text n) : 50 < c.length ∧ trimL c = c := by
  have h1 : 50 < c.length := by simpa using List.of_mem_filter hc
  obtain ⟨b, rfl⟩ :=
    RagBuilder.chunkGo_mem_isTrim n _ [] c (List.mem_of_mem_filter hc)
  exact ⟨h1, trimL_idem b⟩

set_option maxRecDepth 100000 in
/-- Witness for C5 at a concrete input. -/
theorem c5_min_chunk_length_witness :
    (List.replicate 60 'a' ++ ('.' :: [])) ∈ RagBuilder.chunkText oversizedText 60 ∧
    (50 < (List.replicate 60 'a' ++ ('.' :: [])).length ∧
      trimL (List.replicate 60 'a' ++ ('.' :: [])) = List.replicate 60 'a' ++ ('.' :: [])) :=
  ⟨by decide, c5_min_chunk_length oversizedText 60 _ (by decide)⟩

set_option maxRecDepth 100000 in
/-- Counterexample to C6 as stated: for `oversizedText` at target size 60 the
second sentence survives sentence splitting but its chunk is dropped by the
50-character filter, so concatenating the produced chunks loses the word
"short" that the input text contains. -/
theorem c6_counterexample :
    RagBuilder.chunkText oversizedText 60 = [List.replicate 60 'a' ++ ('.' :: [])] ∧
    hasSub oversizedText (("short").data) = true ∧
    hasSub (List.flatten (RagBuilder.chunkText oversizedText 60)) (("short").data) = false :=
  ⟨by decide, by decide, by decide⟩

/-- C6 (amended): the chunker never splits a sentence across two chunks —
the produced chunk list is exactly a consecutive grouping of the sentence
list, each chunk being the trim of the concatenation of its group — but
concatenating the chunks need not reproduce the text: groups whose trimmed
concatenation is 50 characters or shorter are dropped by the final filter
(and text after the last terminal punctuation mark never enters the sentence
list). -/
theorem c6_amended (text : List Char) (n : Nat) :
    ∃ groups : List (List (List Char)),
      List.flatten groups = RagBuilder.splitSentences text ∧
      RagBuilder.chunkText text n =
        (groups.map (fun g => trimL (List.flatten g))).filter (fun c => 50 < c.length) := by
  obtain ⟨p1, ps, hj, he⟩ :=
    RagBuilder.chunkGo_emit n (RagBuilder.splitSentences text) []
  refine ⟨p1 :: ps, by simp [hj], ?_⟩
  unfold RagBuilder.chunkText
  rw [he, RagBuilder.emitAll_filter]
  simp [List.map_map, Function.comp_def]

/-! ## Claims C7, C8 — error handling of the widget pipeline -/

/-- C7: `findRelevantChunks` of chat-widget.js always returns a result list
instead of propagating an exception: it is `ok []` whenever the database
failed to load, it is `ok` for every combination of search-tier outcomes,
and it is `ok []` when both the FTS5 tier and the keyword fallback raise. -/
theorem c7_search_never_throws (init : Bool) (db : Option Unit)
    (fts kw : Except (List Char) (List Chunk)) :
    (∃ r, ChatWidget.findRelevantChunks init db fts kw = Except.ok r) ∧
    ((init = false ∨ db = none) →
      ChatWidget.findRelevantChunks init db fts kw = Except.ok []) ∧
    ((∃ e, fts = Except.error e) → (∃ e, kw = Except.error e) →
      ChatWidget.findRelevantChunks init db fts kw = Except.ok []) := by
  by_cases h : init = false ∨ db = none
  · refine ⟨⟨[], ?_⟩, fun _ => ?_, fun _ _ => ?_⟩ <;>
      simp [ChatWidget.findRelevantChunks, h]
  · refine ⟨?_, fun hld => absurd hld h, ?_⟩
    · cases fts with
      | ok r => exact ⟨r, by simp [ChatWidget.findRelevantChunks, h, ChatWidget.tryCatch]⟩
      | error e =>
        cases kw with
        | ok r => exact ⟨r, by simp [ChatWidget.findRelevantChunks, h, ChatWidget.tryCatch]⟩
        | error e2 => exact ⟨[], by simp [ChatWidget.findRelevantChunks, h, ChatWidget.tryCatch]⟩
    · rintro ⟨e1, rfl⟩ ⟨e2, rfl⟩
      simp [ChatWidget.findRelevantChunks, h, ChatWidget.tryCatch]

/-- Witness for C7 at a concrete input: database load failed. -/
theorem c7_search_never_throws_witness :
    ChatWidget.findRelevantChunks false none (Except.error (("down").data))
      (Except.error (("down").data)) = Except.ok [] :=
  (c7_search_never_throws false none _ _).2.1 (Or.inl rfl)

/-- Counterexample to C8 as stated: with no retrieved chunks and a failed
endpoint, `generateResponse` re-throws the error instead of returning any
answer string (`sendMessage` upstream then renders an apology message). -/
theorem c8_counterexample :
    ChatWidget.generateResponse (("what is x").data) []
      (Except.error (("All Terpedia API endpoints failed").data)) =
      Except.error (("All Terpedia API endpoints failed").data) := rfl

/-- C8 (amended): a successful endpoint answer is returned unchanged; on
endpoint failure with non-empty retrieved chunks `generateResponse` falls
back to the locally templated `generateContextualResponse`, whose answer is
never empty; on endpoint failure with no retrieved chunks the error is
propagated to the caller rather than any string being returned. -/
theorem c8_amended (q : List Char) (chunks : List Chunk) (e s : List Char) :
    (ChatWidget.generateResponse q chunks (Except.ok s) = Except.ok s) ∧
    (chunks ≠ [] →
      ChatWidget.generateResponse q chunks (Except.error e) =
        Except.ok (ChatWidget.generateContextualResponse q chunks
          (ChatWidget.buildContextText chunks)) ∧
      0 < (ChatWidget.generateContextualResponse q chunks
          (ChatWidget.buildContextText chunks)).length) ∧
    (chunks = [] →
      ChatWidget.generateResponse q chunks (Except.error e) = Except.error e) := by
  refine ⟨rfl, fun hne => ⟨?_, ?_⟩, fun hnil => ?_⟩
  · simp [ChatWidget.generateResponse, hne]
  · have step : ∀ u v : List Char, 0 < u.length → 0 < (u ++ v).length := by
      intro u v h
      simp only [List.length_append]
      omega
    simp only [ChatWidget.generateContextualResponse, if_neg hne]
    exact step _ _ (step _ _ (step _ _ (step _ _ (by decide))))
  · simp [ChatWidget.generateResponse, hnil]

/-- A concrete chunk row used by witnesses. -/
def sampleChunk : Chunk :=
  Chunk.mk 1 (("Main Article").data) (("index.html").data) []
    (("Cinnamaldehyde is the principal flavor compound of cinnamon bark.").data) 9

/-- Witness for C8 (amended) at a concrete input. -/
theorem c8_amended_witness :
    ChatWidget.generateResponse (("q").data) [sampleChunk]
      (Except.error (("down").data)) =
      Except.ok (ChatWidget.generateContextualResponse (("q").data) [sampleChunk]
        (ChatWidget.buildContextText [sampleChunk])) ∧
    ChatWidget.generateResponse (("q").data) [] (Except.error (("down").data)) =
      Except.error (("down").data) :=
  ⟨((c8_amended (("q").data) [sampleChunk] (("down").data) []).2.1 (by decide)).1,
    (c8_amended (("q").data) [] (("down").data) []).2.2 rfl⟩

/-! ## Claims C10, C2, C3, C1 — relevance search -/

theorem mem_findWithKeywords {q : List Char} {K : Nat} {db : List Chunk}
    {c : Chunk} (hc : c ∈ ChatWidget.findWithKeywords q K db) :
    matchesAnyToken q c = true ∧ c ∈ db := by
  unfold ChatWidget.findWithKeywords at hc
  by_cases h : queryTokens q = []
  · rw [if_pos h] at hc
    simp at hc
  · rw [if_neg h] at hc
    have h1 : c ∈ (db.filter (matchesAnyToken q)).insertionSort ChatWidget.byWordCount :=
      List.mem_of_mem_take hc
    have h2 : c ∈ db.filter (matchesAnyToken q) :=
      (List.perm_insertionSort _ _).mem_iff.mp h1
    exact ⟨List.of_mem_filter h2, List.mem_of_mem_filter h2⟩

theorem orderedInsert_map_wc (f : Chunk → Chunk)
    (hwc : ∀ c, (f c).word_count = c.word_count) (a : Chunk) (l : List Chunk) :
    List.orderedInsert ChatWidget.byWordCount (f a) (l.map f) =
      (List.orderedInsert ChatWidget.byWordCount a l).map f := by
  induction l with
  | nil => rfl
  | cons b l ih =>
    simp only [List.map_cons, List.orderedInsert]
    have hiff : ChatWidget.byWordCount (f a) (f b) ↔ ChatWidget.byWordCount a b := by
      unfold ChatWidget.byWordCount
      rw [hwc, hwc]
    by_cases h : ChatWidget.byWordCount a b
    · rw [if_pos (hiff.mpr h), if_pos h]
      simp
    · rw [if_neg (fun hh => h (hiff.mp hh)), if_neg h]
      simp [ih]

theorem insertionSort_map_wc (f : Chunk → Chunk)
    (hwc : ∀ c, (f c).word_count = c.word_count) (l : List Chunk) :
    List.insertionSort ChatWidget.byWordCount (l.map f) =
      (List.insertionSort ChatWidget.byWordCount l).map f := by
  induction l with
  | nil => rfl
  | cons a l ih =>
    simp only [List.map_cons, List.insertionSort, ih, orderedInsert_map_wc f hwc]

theorem filter_map_pointwise (p : Chunk → Bool) (f : Chunk → Chunk)
    (hp : ∀ c, p (f c) = p c) (l : List Chunk) :
    (l.map f).filter p = (l.filter p).map f := by
  induction l with
  | nil => rfl
  | cons a l ih =>
    cases hpa : p a <;> simp [List.filter_cons, hp, hpa, ih]

/-- C10: in the deployed widget's keyword fallback search, a chunk is
eligible exactly through containing some query token (of length > 2) as a
substring, the returned list is ordered by `word_count` descending, and the
result is invariant under any rewriting of chunk contents that preserves
word counts and token eligibility — the number or frequency of matched
tokens has no effect on rank. -/
theorem c10_keyword_rank (q : List Char) (K : Nat) (db : List Chunk) :
    (ChatWidget.findWithKeywords q K db).Pairwise
      (fun a b => b.word_count ≤ a.word_count) ∧
    (∀ c ∈ ChatWidget.findWithKeywords q K db,
      ∃ w ∈ queryTokens q, hasSub (lowerL c.chunk_text) w = true) ∧
    (∀ f : Chunk → Chunk,
      (∀ c, (f c).word_count = c.word_count) →
      (∀ c, matchesAnyToken q (f c) = matchesAnyToken q c) →
      ChatWidget.findWithKeywords q K (db.map f) =
        (ChatWidget.findWithKeywords q K db).map f) := by
  refine ⟨?_, ?_, ?_⟩
  · unfold ChatWidget.findWithKeywords
    by_cases h : queryTokens q = []
    · simp [h]
    · rw [if_neg h]
      have hs : ((db.filter (matchesAnyToken q)).insertionSort
          ChatWidget.byWordCount).Sorted ChatWidget.byWordCount :=
        List.sorted_insertionSort _ _
      exact List.Pairwise.sublist (List.take_sublist _ _) hs
  · intro c hc
    have h1 := (mem_findWithKeywords hc).1
    unfold matchesAnyToken at h1
    simpa using List.any_eq_true.mp h1
  · intro f hwc hp
    unfold ChatWidget.findWithKeywords
    by_cases h : queryTokens q = []
    · simp [h]
    · rw [if_neg h, if_neg h, filter_map_pointwise _ f (fun c => hp c) db,
        insertionSort_map_wc f hwc, List.map_take]

set_option maxRecDepth 100000 in
/-- Witness for C10 at a concrete input: the sample chunk returned for the
query "cinnamon bark" is eligible through one of the query tokens. -/
theorem c10_keyword_rank_witness :
    ∃ w ∈ queryTokens (("cinnamon bark").data),
      hasSub (lowerL sampleChunk.chunk_text) w = true :=
  (c10_keyword_rank (("cinnamon bark").data) 5 [sampleChunk]).2.1 sampleChunk
    (by decide)

set_option maxRecDepth 100000 in
/-- Counterexample to C2 as stated: `findRelevantContext` of src/api/chat.js
returns its top-K chunks by score without excluding zero-score ones — a
query with no lexical overlap still returns the chunk. -/
theorem c2_counterexample :
    ApiChat.chunkScore (("hello").data) (("zzz").data) = 0 ∧
    ApiChat.topChunks (("hello").data) [("zzz").data] 3 = [("zzz").data] ∧
    ApiChat.findRelevantContext (("hello").data) (some [("zzz").data]) 3 = ("zzz").data :=
  ⟨by decide, by decide, by decide⟩

/-- C2 (amended): the zero-score exclusion holds for the deployed widget's
`findWithKeywords` — every returned chunk contains some query token as a
substring, and a query with no token occurring in any chunk yields `[]` —
but not for `findRelevantContext` of src/api/chat.js, which returns the
top-K chunks by score even when every score is 0. -/
theorem c2_amended (q : List Char) (K : Nat) (db : List Chunk) :
    (∀ c ∈ ChatWidget.findWithKeywords q K db,
      ∃ w ∈ queryTokens q, hasSub (lowerL c.chunk_text) w = true) ∧
    ((∀ c ∈ db, ∀ w ∈ queryTokens q, hasSub (lowerL c.chunk_text) w = false) →
      ChatWidget.findWithKeywords q K db = []) := by
  constructor
  · intro c hc
    have h1 := (mem_findWithKeywords hc).1
    unfold matchesAnyToken at h1
    simpa using List.any_eq_true.mp h1
  · intro hall
    unfold ChatWidget.findWithKeywords
    by_cases h : queryTokens q = []
    · simp [h]
    · rw [if_neg h]
      have hf : db.filter (matchesAnyToken q) = [] := by
        rw [List.filter_eq_nil_iff]
        intro c hcdb
        simp only [matchesAnyToken, List.any_eq_true, not_exists]
        rintro w ⟨hw1, hw2⟩
        rw [hall c hcdb w hw1] at hw2
        exact Bool.false_ne_true hw2
      rw [hf]
      simp [List.insertionSort]

set_option maxRecDepth 100000 in
/-- Witness for C2 (amended) at a concrete input: a query with no lexical
overlap with the sample chunk yields the empty result. -/
theorem c2_amended_witness :
    ChatWidget.findWithKeywords (("xylophone").data) 5 [sampleChunk] = [] :=
  (c2_amended (("xylophone").data) 5 [sampleChunk]).2 (by decide)

set_option maxRecDepth 100000 in
/-- Counterexample to C3 as stated: the query token "cat" occurs in the
chunk text only inside the longer word "category", yet it contributes 1 to
the chunk score of `findRelevantContext` and makes the chunk eligible (and
returned) in `findWithKeywords` — the matching is plain substring matching,
not word-boundary-aware. -/
theorem c3_counterexample :
    ApiChat.chunkScore (("cat").data)
      (("All category theory is classified here.").data) = 1 ∧
    ChatWidget.findWithKeywords (("cat").data) 5
      [Chunk.mk 3 [] [] [] (("All category theory is classified here.").data) 6] =
      [Chunk.mk 3 [] [] [] (("All category theory is classified here.").data) 6] :=
  ⟨by decide, by decide⟩

theorem countSub_pos (w : List Char) (hw : w ≠ []) :
    ∀ (fuel : Nat) (t : List Char), t.length < fuel → hasSub t w = true →
      1 ≤ ApiChat.countSub fuel t w := by
  intro fuel
  induction fuel with
  | zero => exact fun t ht _ => absurd ht (Nat.not_lt_zero _)
  | succ fuel ih =>
    intro t ht hsub
    by_cases hl : leadsWith w t
    · simp only [ApiChat.countSub, if_pos hl]
      omega
    · cases t with
      | nil =>
        rw [show hasSub [] w = w.isEmpty from rfl, List.isEmpty_iff] at hsub
        exact absurd hsub hw
      | cons c t' =>
        have hsub' : hasSub t' w = true := by
          simp only [hasSub, Bool.or_eq_true] at hsub
          rcases hsub with h | h
          · exact absurd h hl
          · exact h
        have hlt : t'.length < fuel := by
          simp only [List.length_cons] at ht
          omega
        simp only [ApiChat.countSub, if_neg hl]
        exact ih t' hlt hsub'

theorem countMatches_pos (w t : List Char) (hsub : hasSub t w = true) :
    1 ≤ ApiChat.countMatches w t := by
  unfold ApiChat.countMatches
  by_cases hw : w = []
  · rw [if_pos hw]
    omega
  · rw [if_neg hw]
    exact countSub_pos w hw _ t (Nat.lt_succ_self _) hsub

/-- C3 (amended): keyword matching is plain substring matching with no word
boundary: a query word occurring in the chunk text — also as a proper
substring of a longer word — contributes at least 1 to the chunk's
`findRelevantContext` score, and such a chunk is eligible for and returned
by `findWithKeywords`. -/
theorem c3_amended :
    (∀ q text w, w ∈ ApiChat.queryWordsAll q →
      hasSub (lowerL text) w = true → 1 ≤ ApiChat.chunkScore q text) ∧
    (∀ q K c, matchesAnyToken q c = true → queryTokens q ≠ [] → 1 ≤ K →
      ChatWidget.findWithKeywords q K [c] = [c]) := by
  constructor
  · intro q text w hwmem hsub
    unfold ApiChat.chunkScore
    have hmem2 : ApiChat.countMatches w (lowerL text) ∈
        (ApiChat.queryWordsAll q).map (fun w => ApiChat.countMatches w (lowerL text)) :=
      List.mem_map_of_mem _ hwmem
    exact Nat.le_trans (countMatches_pos w _ hsub)
      (List.single_le_sum (fun x _ => Nat.zero_le x) _ hmem2)
  · intro q K c hmat htok hK
    unfold ChatWidget.findWithKeywords
    rw [if_neg htok]
    have hfil : [c].filter (matchesAnyToken q) = [c] := by
      simp [List.filter_cons, hmat]
    rw [hfil]
    cases K with
    | zero => omega
    | succ k => simp [List.insertionSort, List.orderedInsert]

set_option maxRecDepth 100000 in
/-- Witness for C3 (amended) at a concrete input: "cat" inside "category". -/
theorem c3_amended_witness :
    1 ≤ ApiChat.chunkScore (("cat").data)
      (("All category theory is classified here.").data) :=
  c3_amended.1 (("cat").data) (("All category theory is classified here.").data)
    (("cat").data) (by decide) (by decide)

/-- Chunk containing the exact query phrase "alpha beta" verbatim, with a
small word count. -/
def phraseChunk : Chunk :=
  Chunk.mk 1 [] [] []
    (("Alpha beta is discussed here in one exact phrase sentence.").data) 10

/-- Chunk containing only the scattered keywords "alpha" and "beta" (never
the phrase), with a larger word count. -/
def scatteredChunk : Chunk :=
  Chunk.mk 2 [] [] []
    (("The alpha compound and later some beta notes are scattered across this much longer chunk.").data) 50

set_option maxRecDepth 400000 in
/-- Counterexample to C1 as stated: for the query "alpha beta", the phrase
chunk contains the full lower-cased query verbatim while the scattered chunk
does not, yet both searches rank the scattered chunk strictly first — the
part_002 CASE bonus binds only the first query token (which both chunks
contain), and the deployed `findWithKeywords` orders by word count alone. -/
theorem c1_counterexample :
    hasSub (lowerL phraseChunk.chunk_text) (lowerL (("alpha beta").data)) = true ∧
    hasSub (lowerL scatteredChunk.chunk_text) (lowerL (("alpha beta").data)) = false ∧
    Part002.findRelevantChunks (("alpha beta").data) 5 true
      (some [phraseChunk, scatteredChunk]) = [scatteredChunk, phraseChunk] ∧
    ChatWidget.findWithKeywords (("alpha beta").data) 5
      [phraseChunk, scatteredChunk] = [scatteredChunk, phraseChunk] :=
  ⟨by decide, by decide, by decide, by decide⟩

theorem insertionSort_pair {r : Chunk → Chunk → Prop} [DecidableRel r]
    (A B : Chunk) (h1 : r A B) (h2 : ¬ r B A) :
    List.insertionSort r [A, B] = [A, B] ∧
    List.insertionSort r [B, A] = [A, B] := by
  constructor
  · simp [List.insertionSort, List.orderedInsert, h1]
  · simp [List.insertionSort, List.orderedInsert, h2]

theorem take_pair {α : Type} (A B : α) (k : Nat) (hk : 2 ≤ k) :
    List.take k [A, B] = [A, B] := by
  match k, hk with
  | k + 2, _ => simp

/-- C1 (amended): in part_002's search the exact-phrase chunk is ranked
strictly before the scattered chunk only under an extra condition the claim
omits: the scattered chunk must not contain the FIRST query token as a
substring (the SQL CASE bonus binds `queryWords[0]`, not the phrase).  Under
that condition the phrase chunk scores 10 against 1 and is listed first
regardless of word counts, whichever order the two rows come in. -/
theorem c1_amended (q : List Char) (topK : Nat) (A B : Chunk)
    (h0 : queryTokens q ≠ [])
    (hA : hasSub (lowerL A.chunk_text) (lowerL q) = true)
    (hB1 : matchesAnyToken q B = true)
    (hB2 : hasSub (lowerL B.chunk_text) ((queryTokens q).head!) = false)
    (hK : 2 ≤ topK) :
    Part002.findRelevantChunks q topK true (some [A, B]) = [A, B] ∧
    Part002.findRelevantChunks q topK true (some [B, A]) = [A, B] := by
  obtain ⟨w0, ws', hws⟩ : ∃ w0 ws', queryTokens q = w0 :: ws' := by
    cases hq : queryTokens q with
    | nil => exact absurd hq h0
    | cons a l => exact ⟨a, l, rfl⟩
  have hhead : (queryTokens q).head! = w0 := by
    rw [hws]
    rfl
  have hw0mem : w0 ∈ queryTokens q := by
    rw [hws]
    exact List.mem_cons_self _ _
  have hw0q : hasSub (lowerL q) w0 = true := by
    have hmem := hw0mem
    unfold queryTokens at hmem
    exact jsSplitWs_hasSub _ _ _ (List.mem_of_mem_filter hmem)
  have hAw0 : hasSub (lowerL A.chunk_text) w0 = true := hasSub_trans hA hw0q
  have hB2' : hasSub (lowerL B.chunk_text) w0 = false := by
    rw [← hhead]
    exact hB2
  have hcsA : Part002.caseScore q A = 10 := by
    unfold Part002.caseScore
    rw [hhead, if_pos hAw0]
  have hcsB : Part002.caseScore q B = 1 := by
    unfold Part002.caseScore
    rw [hhead, if_neg (by simp [hB2'])]
  have hmA : matchesAnyToken q A = true := by
    unfold matchesAnyToken
    rw [List.any_eq_true]
    exact ⟨w0, hw0mem, hAw0⟩
  have hr1 : Part002.rankOrder q A B := Or.inl (by rw [hcsA, hcsB]; omega)
  have hr2 : ¬ Part002.rankOrder q B A := by
    unfold Part002.rankOrder
    rw [hcsA, hcsB]
    rintro (h | ⟨h, -⟩) <;> omega
  obtain ⟨hs1, hs2⟩ := insertionSort_pair (r := Part002.rankOrder q) A B hr1 hr2
  constructor
  · unfold Part002.findRelevantChunks
    rw [if_neg (by simp), if_neg h0]
    simp only [Option.getD_some]
    rw [show List.filter (matchesAnyToken q) [A, B] = [A, B] from by
      simp [List.filter_cons, hmA, hB1]]
    rw [hs1]
    exact take_pair A B topK hK
  · unfold Part002.findRelevantChunks
    rw [if_neg (by simp), if_neg h0]
    simp only [Option.getD_some]
    rw [show List.filter (matchesAnyToken q) [B, A] = [B, A] from by
      simp [List.filter_cons, hmA, hB1]]
    rw [hs2]
    exact take_pair A B topK hK

set_option maxRecDepth 400000 in
/-- Witness for C1 (amended) at a concrete input: against a scattered chunk
that lacks the first query token, the exact-phrase chunk ranks first in both
row orders. -/
theorem c1_amended_witness :
    Part002.findRelevantChunks (("alpha beta").data) 5 true
      (some [phraseChunk, Chunk.mk 2 [] [] []
        (("Some beta notes are scattered across this much longer chunk.").data) 50]) =
      [phraseChunk, Chunk.mk 2 [] [] []
        (("Some beta notes are scattered across this much longer chunk.").data) 50] :=
  (c1_amended (("alpha beta").data) 5 phraseChunk
    (Chunk.mk 2 [] [] []
      (("Some beta notes are scattered across this much longer chunk.").data) 50)
    (by decide) (by decide) (by decide) (by decide) (by decide)).1

/-! ## Claim C9 — response-shape normalization -/

/-- A chat-completion-shaped payload carrying the answer "hi". -/
def choicesPayload : JVal :=
  JVal.jobj (JObj.ocons (("choices").data)
    (JVal.jarr (JArr.acons
      (JVal.jobj (JObj.ocons (("message").data)
        (JVal.jobj (JObj.ocons (("content").data) (JVal.jstr (("hi").data)) JObj.onil))
        JObj.onil))
      JArr.anil))
    JObj.onil)

/-- A payload whose `choices` field is an object binding the key "0" rather
than an array; `data.choices[0]` still finds it. -/
def choicesObjPayload : JVal :=
  JVal.jobj (JObj.ocons (("choices").data)
    (JVal.jobj (JObj.ocons (("0").data)
      (JVal.jobj (JObj.ocons (("message").data)
        (JVal.jobj (JObj.ocons (("content").data) (JVal.jstr (("hi").data)) JObj.onil))
        JObj.onil))
      JObj.onil))
    JObj.onil)

/-- Counterexample to C9 as stated, on three counts.  (1) On a
chat-completion-shaped payload the part_002 `callAPI` normalization (which
the claim also covers) returns the stringification of the whole payload,
not `choices[0].message.content` — it has no `choices` branch; only the
deployed chat-widget.js normalization extracts the content.  (2) "never an
error" fails: on a JSON `null` payload the first read `data.response`
throws a `TypeError` in both variants (the endpoint loop then treats that
as endpoint failure).  (3) The catch-all "stringify any other shape" fails
for the widget: a `choices` object binding the key "0" is not
chat-completion-shaped, yet `data.choices[0]` looks the key up and the
content is returned instead of the stringification. -/
theorem c9_counterexample :
    Part002.callAPINorm choicesPayload = some (JVal.jstr (stringify choicesPayload)) ∧
    stringify choicesPayload ≠ ("hi").data ∧
    ChatWidget.normalizeResponse choicesPayload = some (JVal.jstr (("hi").data)) ∧
    ChatWidget.normalizeResponse JVal.jnull = none ∧
    Part002.callAPINorm JVal.jnull = none ∧
    ChatWidget.normalizeResponse choicesObjPayload = some (JVal.jstr (("hi").data)) ∧
    stringify choicesObjPayload ≠ ("hi").data :=
  ⟨rfl, by decide, rfl, rfl, rfl, rfl, by decide⟩

/-- C9 (amended): the normalization is not total — a `null` (or
`undefined`) payload throws a `TypeError` at the very first property read
in both variants, which the surrounding endpoint `try`/`catch` converts
into endpoint failure.  On payloads whose property reads succeed, the
deployed chat-widget.js normalization returns `response` when truthy
(present-but-falsy fields such as empty strings are skipped, not
returned), else `message` when truthy, else `choices[0].message.content`
when the truthiness chain holds (`choices[0]` being an array element, the
binding of key "0" on an object, or the first character of a string), else a
bare string
payload verbatim (not stringified), else the stringified payload; the
part_002 variant handles only `response` and `message` and stringifies
every other shape, including chat-completion payloads. -/
theorem c9_amended (d : JVal) :
    (ChatWidget.normalizeResponse JVal.jnull = none ∧
      Part002.callAPINorm JVal.jnull = none ∧
      ChatWidget.normalizeResponse JVal.undef = none ∧
      Part002.callAPINorm JVal.undef = none) ∧
    (∀ s, getField d (("response").data) = some (JVal.jstr s) → s ≠ [] →
      ChatWidget.normalizeResponse d = some (JVal.jstr s) ∧
      Part002.callAPINorm d = some (JVal.jstr s)) ∧
    (∀ r s, getField d (("response").data) = some r → truthy r = false →
      getField d (("message").data) = some (JVal.jstr s) → s ≠ [] →
      ChatWidget.normalizeResponse d = some (JVal.jstr s) ∧
      Part002.callAPINorm d = some (JVal.jstr s)) ∧
    (∀ r m ch ch0 msg,
      getField d (("response").data) = some r → truthy r = false →
      getField d (("message").data) = some m → truthy m = false →
      getField d (("choices").data) = some ch → truthy ch = true →
      jsIndex0 ch = some ch0 → truthy ch0 = true →
      getField ch0 (("message").data) = some msg → truthy msg = true →
      ChatWidget.normalizeResponse d = getField msg (("content").data) ∧
      Part002.callAPINorm d = some (JVal.jstr (stringify d))) ∧
    (∀ r m ch,
      getField d (("response").data) = some r → truthy r = false →
      getField d (("message").data) = some m → truthy m = false →
      getField d (("choices").data) = some ch →
      (truthy ch = false ∨
        (∃ ch0, jsIndex0 ch = some ch0 ∧ (truthy ch0 = false ∨
          (∃ msg, getField ch0 (("message").data) = some msg ∧
            truthy msg = false)))) →
      ChatWidget.normalizeResponse d =
        (if isJsString d then some d else some (JVal.jstr (stringify d))) ∧
      Part002.callAPINorm d = some (JVal.jstr (stringify d))) := by
  refine ⟨⟨rfl, rfl, rfl, rfl⟩, ?_, ?_, ?_, ?_⟩
  · intro s hs hne
    have ht : truthy (JVal.jstr s) = true := by
      simpa [truthy] using hne
    constructor
    · unfold ChatWidget.normalizeResponse
      simp only [hs, ht, if_true]
    · unfold Part002.callAPINorm
      simp only [hs, ht, if_true]
  · intro r s hr htr hm hne
    have ht : truthy (JVal.jstr s) = true := by
      simpa [truthy] using hne
    constructor
    · unfold ChatWidget.normalizeResponse
      simp only [hr, htr, hm, ht, if_true, if_false, Bool.false_eq_true]
    · unfold Part002.callAPINorm
      simp only [hr, htr, hm, ht, if_true, if_false, Bool.false_eq_true]
  · intro r m ch ch0 msg hr htr hm htm hch htch hch0 htch0 hmsg htmsg
    constructor
    · unfold ChatWidget.normalizeResponse
      simp only [hr, htr, hm, htm, hch, htch, hch0, htch0, hmsg, htmsg,
        if_true, if_false, Bool.false_eq_true]
    · unfold Part002.callAPINorm
      simp only [hr, htr, hm, htm, if_false, Bool.false_eq_true]
  · intro r m ch hr htr hm htm hch hfail
    constructor
    · unfold ChatWidget.normalizeResponse
      rcases hfail with hf | ⟨ch0, hch0, hf2⟩
      · simp only [hr, htr, hm, htm, hch, hf, if_false, Bool.false_eq_true,
          ChatWidget.unrecognizedShape]
      · by_cases htc : truthy ch = true
        · rcases hf2 with hf2 | ⟨msg, hmsg, hf3⟩
          · simp only [hr, htr, hm, htm, hch, htc, hch0, hf2, if_true, if_false,
              Bool.false_eq_true, ChatWidget.unrecognizedShape]
          · simp only [hr, htr, hm, htm, hch, htc, hch0, hmsg, hf3, if_true,
              if_false, Bool.false_eq_true, ChatWidget.unrecognizedShape]
            split <;> rfl
        · rw [Bool.not_eq_true] at htc
          simp only [hr, htr, hm, htm, hch, htc, if_false, Bool.false_eq_true,
            ChatWidget.unrecognizedShape]
    · unfold Part002.callAPINorm
      simp only [hr, htr, hm, htm, if_false, Bool.false_eq_true]

/-- Witness for C9 (amended) at a concrete payload with a truthy
`response` field. -/
theorem c9_amended_witness :
    ChatWidget.normalizeResponse
      (JVal.jobj (JObj.ocons (("response").data) (JVal.jstr (("ok").data)) JObj.onil)) =
      some (JVal.jstr (("ok").data)) :=
  ((c9_amended
    (JVal.jobj (JObj.ocons (("response").data) (JVal.jstr (("ok").data)) JObj.onil))).2.1
    (("ok").data) rfl (by decide)).1
